import Mathlib

/-!
Verification of the leads/call-log processing core of the `leads_app`
repository.  The Python source is shallowly embedded: pure helper methods
become Lean functions on `String`/`List Char`/`ℚ`, pandas null values become
`Option`, and per-phone groups become lists of records.
-/

/-! ## Basic character and string utilities shared by the embedding -/

/-- Characters Python's `str.strip()` removes from both ends. -/
def isSpaceChar (c : Char) : Bool :=
  c == ' ' || c == '\t' || c == '\n' || c == '\r'

/-- Python `str.strip()` on a character list. -/
def pyStrip (l : List Char) : List Char :=
  ((l.dropWhile isSpaceChar).reverse.dropWhile isSpaceChar).reverse

/-- The 26 ASCII uppercase letters paired with their lowercase forms. -/
def upperLowerPairs : List (Char × Char) :=
  [('A','a'), ('B','b'), ('C','c'), ('D','d'), ('E','e'), ('F','f'), ('G','g'),
   ('H','h'), ('I','i'), ('J','j'), ('K','k'), ('L','l'), ('M','m'), ('N','n'),
   ('O','o'), ('P','p'), ('Q','q'), ('R','r'), ('S','s'), ('T','t'), ('U','u'),
   ('V','v'), ('W','w'), ('X','x'), ('Y','y'), ('Z','z')]

/-- Python `str.lower()` on one (ASCII) character. -/
def pyLowerChar (c : Char) : Char :=
  match upperLowerPairs.find? (fun p => p.1 == c) with
  | some p => p.2
  | none => c

/-- Python `str.lower()` on a character list. -/
def pyLower (l : List Char) : List Char := l.map pyLowerChar

/-- `re.sub(r'\D', '', s)`: keep only digit characters. -/
def stripNonDigits (l : List Char) : List Char := l.filter Char.isDigit

/-- Python `str.rstrip('0')`: drop trailing `'0'` characters. -/
def rstripZeros (l : List Char) : List Char :=
  (l.reverse.dropWhile (· == '0')).reverse

/-- Does the digit string begin with `"94"`? -/
def starts94 : List Char → Bool
  | '9' :: '4' :: _ => true
  | _ => false

/-- Does the digit string begin with `"0"`? -/
def starts0 : List Char → Bool
  | '0' :: _ => true
  | _ => false

/-- The last 9 characters of a list (`clean_number[-9:]` for length > 9). -/
def lastNine (l : List Char) : List Char := l.drop (l.length - 9)

/-- Every character of the list is an ASCII digit. -/
def allDigits (l : List Char) : Bool := l.all Char.isDigit

namespace UnifiedProcessor

/-- Embeds `UnifiedProcessor.standardize_phone_number` of `merged_app.py`
(the identical method of `CallLogProcessor` in `call_logs_app.py` and of
`LeadsProcessor` in `app4.py`): canonicalize a phone string to the
international `"94…"` form. -/
def standardize_phone_number (phone_str : String) : String :=
  if phone_str.data = [] then phone_str
  else
    let c := rstripZeros (stripNonDigits phone_str.data)
    if c = [] then phone_str
    else if starts94 c then
      if 9 ≤ c.length then ⟨c⟩ else phone_str
    else if c.length = 9 then ⟨'9' :: '4' :: c⟩
    else if c.length = 10 && starts0 c then ⟨'9' :: '4' :: c.tail⟩
    else if c.length = 7 then ⟨'9' :: '4' :: c⟩
    else if 9 < c.length then ⟨'9' :: '4' :: lastNine c⟩
    else ⟨'9' :: '4' :: c⟩

end UnifiedProcessor

namespace DataCleaner

/-- Embeds `DataCleaner.clean_phone_number` of `helpers/data_cleaning.py`:
canonicalize a phone string to the domestic 10-digit `"0…"` form, or `none`
when the result fails the final shape validation.  (The `'+94'` branch of the
source is kept even though it can never fire after digit filtering.) -/
def clean_phone_number (phone : String) : Option String :=
  if phone = "" ∨ phone = "nan" ∨ phone = "None" ∨ phone = "null" then none
  else
    let phone_str := pyStrip phone.data
    let cleaned := stripNonDigits phone_str
    let cleaned :=
      if starts94 cleaned then '0' :: cleaned.drop 2
      else if cleaned.take 3 = ['+', '9', '4'] then '0' :: cleaned.drop 3
      else if cleaned.length = 9 && !starts0 cleaned then '0' :: cleaned
      else cleaned
    if cleaned.length = 10 && starts0 cleaned then some ⟨cleaned⟩ else none

end DataCleaner

/-! ## Lemmas about the shared phone cleaning stages -/

theorem mem_rstripZeros {a : Char} {l : List Char} (h : a ∈ rstripZeros l) :
    a ∈ l := by
  unfold rstripZeros at h
  have h1 := (List.dropWhile_suffix (l := l.reverse) (· == '0')).subset
    (List.mem_reverse.mp h)
  exact List.mem_reverse.mp h1

theorem digits_of_mem_stripNonDigits {a : Char} {l : List Char}
    (h : a ∈ stripNonDigits l) : a.isDigit := by
  unfold stripNonDigits at h
  exact (List.mem_filter.mp h).2

theorem stripNonDigits_eq_self {l : List Char} (h : ∀ a ∈ l, a.isDigit) :
    stripNonDigits l = l :=
  List.filter_eq_self.mpr h

theorem getLast?_rstripZeros {l : List Char} {a : Char}
    (h : (rstripZeros l).getLast? = some a) : a ≠ '0' := by
  unfold rstripZeros at h
  rw [List.getLast?_reverse] at h
  have h2 := List.head?_dropWhile_not (· == '0') l.reverse
  rw [h] at h2
  simpa using h2

theorem rstripZeros_eq_self {l : List Char} (h : l.getLast? ≠ some '0') :
    rstripZeros l = l := by
  unfold rstripZeros
  rcases hrev : l.reverse with _ | ⟨a, t⟩
  · simpa using congrArg List.reverse hrev
  · have ha : l.getLast? = some a := by
      rw [List.getLast?_eq_head?_reverse, hrev]; rfl
    have hne : (a == '0') = false := by
      rcases h3 : a == '0' with _ | _
      · rfl
      · exact absurd (by rw [ha, eq_of_beq h3]) h
    rw [List.dropWhile_cons, hne]
    simpa using congrArg List.reverse hrev.symm

theorem getLast?_cons_cons_of_ne_nil (a b : Char) {l : List Char}
    (h : l ≠ []) : (a :: b :: l).getLast? = l.getLast? := by
  rcases l with _ | ⟨c, t⟩
  · exact absurd rfl h
  · simp

/-- Every possible result of `standardize_phone_number`: either the input is
returned unchanged, or the result is a non-empty all-digit string that begins
with `"94"` and does not end in `'0'`. -/
theorem standardize_phone_number_cases (s : String) :
    UnifiedProcessor.standardize_phone_number s = s ∨
    ∃ r : List Char, UnifiedProcessor.standardize_phone_number s = ⟨r⟩ ∧
      r ≠ [] ∧ (∀ a ∈ r, a.isDigit) ∧ r.getLast? ≠ some '0' ∧
      starts94 r = true := by
  unfold UnifiedProcessor.standardize_phone_number
  by_cases h1 : s.data = []
  · left; rw [if_pos h1]
  rw [if_neg h1]
  set c := rstripZeros (stripNonDigits s.data) with hc
  have hdig : ∀ a ∈ c, a.isDigit := fun a ha =>
    digits_of_mem_stripNonDigits (mem_rstripZeros ha)
  have hlast : c.getLast? ≠ some '0' := by
    intro h
    exact getLast?_rstripZeros h rfl
  by_cases h2 : c = []
  · left; rw [if_pos h2]
  rw [if_neg h2]
  by_cases h3 : starts94 c
  · rw [if_pos h3]
    by_cases h4 : 9 ≤ c.length
    · right
      exact ⟨c, by rw [if_pos h4], h2, hdig, hlast, h3⟩
    · left; rw [if_neg h4]
  rw [if_neg h3]
  have hdig94 : ∀ (x : List Char), (∀ a ∈ x, a.isDigit) →
      ∀ a ∈ '9' :: '4' :: x, a.isDigit := by
    intro x hx a ha
    rcases ha with _ | ⟨_, _ | ⟨_, hmem⟩⟩
    · decide
    · decide
    · exact hx a hmem
  have hlast94 : ∀ (x : List Char), x ≠ [] → x.getLast? ≠ some '0' →
      ('9' :: '4' :: x).getLast? ≠ some '0' := by
    intro x hx hlx
    rw [getLast?_cons_cons_of_ne_nil _ _ hx]; exact hlx
  by_cases h4 : c.length = 9
  · rw [if_pos h4]
    right
    exact ⟨'9' :: '4' :: c, rfl, by simp, hdig94 c hdig, hlast94 c h2 hlast, rfl⟩
  rw [if_neg h4]
  by_cases h5 : (decide (c.length = 10) && starts0 c) = true
  · rw [if_pos h5]
    right
    have hlen : c.length = 10 := by
      have := (Bool.and_eq_true _ _).mp h5
      exact of_decide_eq_true this.1
    rcases c with _ | ⟨x, xs⟩
    · exact absurd rfl h2
    have hxs : xs ≠ [] := by
      intro h
      rw [h] at hlen
      simp at hlen
    refine ⟨'9' :: '4' :: xs, rfl, by simp, ?_, ?_, rfl⟩
    · exact hdig94 xs (fun a ha => hdig a (List.mem_cons_of_mem x ha))
    · refine hlast94 xs hxs ?_
      rcases xs with _ | ⟨y, ys⟩
      · exact absurd rfl hxs
      · rw [List.getLast?_cons_cons] at hlast
        exact hlast
  rw [if_neg h5]
  by_cases h6 : c.length = 7
  · rw [if_pos h6]
    right
    exact ⟨'9' :: '4' :: c, rfl, by simp, hdig94 c hdig, hlast94 c h2 hlast, rfl⟩
  rw [if_neg h6]
  by_cases h7 : 9 < c.length
  · rw [if_pos h7]
    right
    have hd : lastNine c ≠ [] := by
      unfold lastNine
      intro h
      have := congrArg List.length h
      rw [List.length_drop] at this
      simp at this
      omega
    refine ⟨'9' :: '4' :: lastNine c, rfl, by simp,
      hdig94 _ (fun a ha => hdig a (List.drop_subset _ _ ha)), ?_, rfl⟩
    refine hlast94 _ hd ?_
    unfold lastNine
    have hsplit := List.take_append_drop (c.length - 9) c
    have : c.getLast? = (c.drop (c.length - 9)).getLast? := by
      conv_lhs => rw [← hsplit]
      rw [List.getLast?_append]
      rcases hdrop : c.drop (c.length - 9) with _ | ⟨y, ys⟩
      · exact absurd hdrop hd
      · exact Option.or_of_isSome
          (List.getLast?_isSome.mpr (List.cons_ne_nil y ys))
    rw [← this]
    exact hlast
  · rw [if_neg h7]
    right
    exact ⟨'9' :: '4' :: c, rfl, by simp, hdig94 c hdig, hlast94 c h2 hlast, rfl⟩

/-- A non-empty all-digit string beginning with `"94"` and not ending in `'0'`
is a fixed point of `standardize_phone_number`. -/
theorem standardize_phone_number_fixed {r : List Char} (hne : r ≠ [])
    (hdig : ∀ a ∈ r, a.isDigit) (hlast : r.getLast? ≠ some '0')
    (h94 : starts94 r = true) :
    UnifiedProcessor.standardize_phone_number ⟨r⟩ = ⟨r⟩ := by
  unfold UnifiedProcessor.standardize_phone_number
  have hdata : (String.mk r).data = r := rfl
  rw [hdata, if_neg hne]
  have hc : rstripZeros (stripNonDigits r) = r := by
    rw [stripNonDigits_eq_self hdig, rstripZeros_eq_self hlast]
  rw [hc, if_neg hne, if_pos h94]
  by_cases h4 : 9 ≤ r.length
  · rw [if_pos h4]
  · rw [if_neg h4]

/-- C1: for every non-empty phone input, canonicalization to the
international form is idempotent: applying `standardize_phone_number` to its
own result yields the same value as applying it once. -/
theorem standardize_phone_number_idempotent (s : String) (h : s ≠ "") :
    UnifiedProcessor.standardize_phone_number
      (UnifiedProcessor.standardize_phone_number s) =
    UnifiedProcessor.standardize_phone_number s := by
  clear h
  rcases standardize_phone_number_cases s with h1 | ⟨r, hr, hne, hdig, hlast, h94⟩
  · simp only [h1]
  · rw [hr]
    exact standardize_phone_number_fixed hne hdig hlast h94

/-- Witness for C1 at the concrete input `"0771234567"`. -/
theorem standardize_phone_number_idempotent_witness :
    ("0771234567" : String) ≠ "" ∧
    UnifiedProcessor.standardize_phone_number
      (UnifiedProcessor.standardize_phone_number "0771234567") =
    UnifiedProcessor.standardize_phone_number "0771234567" :=
  ⟨by decide, standardize_phone_number_idempotent "0771234567" (by decide)⟩

/-- C10: whenever international canonicalization returns a value different
from its input, that value consists only of digit characters, begins with
`"94"`, and never ends in the digit `'0'` (trailing zeros are stripped). -/
theorem standardize_phone_number_changed_shape (s : String)
    (h : UnifiedProcessor.standardize_phone_number s ≠ s) :
    allDigits (UnifiedProcessor.standardize_phone_number s).data = true ∧
    starts94 (UnifiedProcessor.standardize_phone_number s).data = true ∧
    (UnifiedProcessor.standardize_phone_number s).data.getLast? ≠ some '0' := by
  rcases standardize_phone_number_cases s with h1 | ⟨r, hr, hne, hdig, hlast, h94⟩
  · exact absurd h1 h
  · rw [hr]
    exact ⟨List.all_eq_true.mpr hdig, h94, hlast⟩

/-- Witness for C10 at `"0771234560"` (a number genuinely ending in zero,
which the canonicalizer changes to `"94077123456"`). -/
theorem standardize_phone_number_changed_shape_witness :
    UnifiedProcessor.standardize_phone_number "0771234560" ≠ "0771234560" ∧
    (allDigits (UnifiedProcessor.standardize_phone_number "0771234560").data
        = true ∧
     starts94 (UnifiedProcessor.standardize_phone_number "0771234560").data
        = true ∧
     (UnifiedProcessor.standardize_phone_number
        "0771234560").data.getLast? ≠ some '0') :=
  ⟨by decide, standardize_phone_number_changed_shape "0771234560" (by decide)⟩

/-- C3: domestic canonicalization yields `none` or a string of exactly 10
digit characters whose first character is `'0'`; in particular
`"94771234567"` canonicalizes to `"0771234567"`. -/
theorem clean_phone_number_shape :
    (∀ s r, DataCleaner.clean_phone_number s = some r →
      r.length = 10 ∧ starts0 r.data = true ∧ allDigits r.data = true) ∧
    DataCleaner.clean_phone_number "94771234567" = some "0771234567" := by
  constructor
  · intro s r h
    unfold DataCleaner.clean_phone_number at h
    by_cases h0 : s = "" ∨ s = "nan" ∨ s = "None" ∨ s = "null"
    · rw [if_pos h0] at h
      exact absurd h (by simp)
    rw [if_neg h0] at h
    set c0 := stripNonDigits (pyStrip s.data) with hc0
    have hdigc0 : ∀ a ∈ c0, a.isDigit := fun a ha =>
      digits_of_mem_stripNonDigits ha
    set cl := (if starts94 c0 then '0' :: c0.drop 2
      else if c0.take 3 = ['+', '9', '4'] then '0' :: c0.drop 3
      else if (decide (c0.length = 9) && !starts0 c0) = true then '0' :: c0
      else c0) with hcl
    have hdigcl : ∀ a ∈ cl, a.isDigit := by
      rw [hcl]
      split
      · intro a ha
        rcases List.mem_cons.mp ha with h' | h'
        · rw [h']; decide
        · exact hdigc0 a (List.drop_subset _ _ h')
      split
      · intro a ha
        rcases List.mem_cons.mp ha with h' | h'
        · rw [h']; decide
        · exact hdigc0 a (List.drop_subset _ _ h')
      split
      · intro a ha
        rcases List.mem_cons.mp ha with h' | h'
        · rw [h']; decide
        · exact hdigc0 a h'
      · exact hdigc0
    by_cases hv : (decide (cl.length = 10) && starts0 cl) = true
    · rw [if_pos hv] at h
      have hr : r = ⟨cl⟩ := (Option.some.inj h).symm
      obtain ⟨hlen, hst⟩ := (Bool.and_eq_true _ _).mp hv
      subst hr
      refine ⟨of_decide_eq_true hlen, hst, ?_⟩
      exact List.all_eq_true.mpr hdigcl
    · rw [if_neg hv] at h
      exact absurd h (by simp)
  · decide

/-- Witness for C3 at the concrete input `"94771234567"`. -/
theorem clean_phone_number_shape_witness :
    ("0771234567" : String).length = 10 ∧ starts0 "0771234567".data = true ∧
    allDigits "0771234567".data = true :=
  clean_phone_number_shape.1 "94771234567" "0771234567" (by decide)

/-! ## Column classification (`identify_column_type` of `merged_app.py`) -/

/-- Does `pat` occur at the start of `s`? -/
def beginsWith : List Char → List Char → Bool
  | [], _ => true
  | _ :: _, [] => false
  | a :: as, b :: bs => a == b && beginsWith as bs

/-- Python's substring test `pat in s` on character lists. -/
def containsSub (pat : List Char) : List Char → Bool
  | [] => pat.isEmpty
  | c :: rest => beginsWith pat (c :: rest) || containsSub pat rest

/-- The semantic role assigned to a spreadsheet column header. -/
inductive ColumnRole where
  | Name | Phone | Email | City | Update | Other
  deriving DecidableEq, Repr

namespace UnifiedProcessor

/-- `name_patterns` of `identify_column_type`. -/
def name_patterns : List String :=
  ["name", "full name", "fullname", "first name", "contact name", "person"]

/-- `phone_patterns` of `identify_column_type`. -/
def phone_patterns : List String :=
  ["phone", "number", "phone number", "contact", "tel", "telephone", "mobile"]

/-- `email_patterns` of `identify_column_type`. -/
def email_patterns : List String :=
  ["email", "e-mail", "mail", "gmail"]

/-- `city_patterns` of `identify_column_type`. -/
def city_patterns : List String :=
  ["city", "town", "location", "area", "district"]

/-- `update_patterns` of `identify_column_type`. -/
def update_patterns : List String :=
  ["update", "followup", "follow up", "status", "remark", "comment", "note",
   "call", "follow", "weekend"]

/-- Embeds `UnifiedProcessor.identify_column_type` of `merged_app.py`: the
categories are tested in the source's order Name, Phone, Email, City,
Update, with `Other` as the fallback. -/
def identify_column_type (column_name : String) : ColumnRole :=
  let col_lower := pyLower column_name.data
  if name_patterns.any (fun p => containsSub p.data col_lower) then .Name
  else if phone_patterns.any (fun p => containsSub p.data col_lower) then .Phone
  else if email_patterns.any (fun p => containsSub p.data col_lower) then .Email
  else if city_patterns.any (fun p => containsSub p.data col_lower) then .City
  else if update_patterns.any (fun p => containsSub p.data col_lower) then
    .Update
  else .Other

end UnifiedProcessor

/-- The category table in the precedence order the source actually uses:
Name, then Phone, then Email, then City, then Update. -/
def roleTable : List (ColumnRole × List String) :=
  [(.Name, UnifiedProcessor.name_patterns),
   (.Phone, UnifiedProcessor.phone_patterns),
   (.Email, UnifiedProcessor.email_patterns),
   (.City, UnifiedProcessor.city_patterns),
   (.Update, UnifiedProcessor.update_patterns)]

/-- First-match lookup over an ordered category table, `Other` when no
category's substring patterns match. -/
def firstRole (col : List Char) : List (ColumnRole × List String) → ColumnRole
  | [] => .Other
  | (role, pats) :: rest =>
    if pats.any (fun p => containsSub p.data col) then role
    else firstRole col rest

/-- Classification as the (amended) specification words it: a first-match
scan of the lower-cased header over the ordered category table. -/
def classify_spec (column_name : String) : ColumnRole :=
  firstRole (pyLower column_name.data) roleTable

/-- C2 counterexample: the header `"mail contact"` matches both an Email
pattern (`"mail"`) and a Phone pattern (`"contact"`), yet it is classified
`Phone`, not `Email` — the code tests Phone before Email. -/
theorem identify_column_type_counterexample :
    containsSub "mail".data (pyLower "mail contact".data) = true ∧
    containsSub "contact".data (pyLower "mail contact".data) = true ∧
    UnifiedProcessor.identify_column_type "mail contact" = ColumnRole.Phone ∧
    UnifiedProcessor.identify_column_type "mail contact" ≠ ColumnRole.Email :=
  ⟨by decide, by decide, by decide, by decide⟩

/-- C2 (amended): column classification is a function of the lower-cased
header text that evaluates the role categories in the fixed precedence Name,
then Phone, then Email, then City, then Update, returning the first category
whose substring patterns match and `Other` when none match; a header matching
both an Email pattern and a Phone pattern is classified Phone. -/
theorem identify_column_type_is_first_match (s : String) :
    UnifiedProcessor.identify_column_type s = classify_spec s := by
  rfl

/-! ## Duration parsing -/

/-- Numeric value of a run of ASCII digit characters. -/
def digitsVal (l : List Char) : ℕ :=
  l.foldl (fun n c => 10 * n + (c.toNat - 48)) 0

/-- Python `int(s)`: optional surrounding whitespace, optional sign, at least
one digit. -/
def intParse (l : List Char) : Option ℤ :=
  let t := pyStrip l
  match t with
  | '-' :: rest =>
    if rest ≠ [] ∧ allDigits rest then some (-(digitsVal rest : ℤ)) else none
  | '+' :: rest =>
    if rest ≠ [] ∧ allDigits rest then some (digitsVal rest) else none
  | _ => if t ≠ [] ∧ allDigits t then some ((digitsVal t : ℤ)) else none

/-- Python `s.split(sep)` for a single-character separator (empty pieces
kept, result always non-empty). -/
def splitOnChar (sep : Char) : List Char → List (List Char)
  | [] => [[]]
  | c :: rest =>
    if c == sep then [] :: splitOnChar sep rest
    else
      match splitOnChar sep rest with
      | [] => [[c]]
      | p :: ps => (c :: p) :: ps

/-- Unsigned decimal mantissa of a Python `float(s)` literal: digits with at
most one `'.'` (either side of the dot may be empty, not both). -/
def mantVal (l : List Char) : Option ℚ :=
  if l ≠ [] ∧ allDigits l then some ((digitsVal l : ℚ))
  else
    match splitOnChar '.' l with
    | [ip, fp] =>
      if (allDigits ip ∧ allDigits fp) ∧ (ip ≠ [] ∨ fp ≠ []) then
        some ((digitsVal ip : ℚ) + (digitsVal fp : ℚ) / (10 ^ fp.length))
      else none
    | _ => none

/-- Exponent of a scientific `float` literal: optional sign, digits. -/
def expVal : List Char → Option ℤ
  | '-' :: ds =>
    if ds ≠ [] ∧ allDigits ds then some (-(digitsVal ds : ℤ)) else none
  | '+' :: ds =>
    if ds ≠ [] ∧ allDigits ds then some ((digitsVal ds : ℤ)) else none
  | ds => if ds ≠ [] ∧ allDigits ds then some ((digitsVal ds : ℤ)) else none

/-- The part of a Python `float(s)` literal after the optional leading sign:
a decimal mantissa optionally followed by `e` and a signed exponent (the
inputs reaching it are already lower-cased).  This covers every *finite*
literal; the non-finite literals `nan`/`inf`/`infinity`, which Python also
accepts but which no rational number can represent, are treated as parse
failures here — colon-form durations containing them lie outside this
rational model. -/
def parsePosDec (l : List Char) : Option ℚ :=
  match splitOnChar 'e' l with
  | [m] => mantVal m
  | [m, e] =>
    match mantVal m, expVal e with
    | some q, some z => some (q * (10 : ℚ) ^ z)
    | _, _ => none
  | _ => none

/-- Python `float(s)`: strip whitespace, optional sign, finite literal. -/
def floatParse (l : List Char) : Option ℚ :=
  match pyStrip l with
  | '-' :: rest => (parsePosDec rest).map (fun q => -q)
  | '+' :: rest => parsePosDec rest
  | t => parsePosDec t

/-- Fuel-bounded maximal-digit-run scanner (the fuel is only a structural
termination device; `digitRuns` always passes enough). -/
def digitRunsAux : ℕ → List Char → List (List Char)
  | 0, _ => []
  | _ + 1, [] => []
  | n + 1, c :: rest =>
    if c.isDigit then
      (c :: rest.takeWhile Char.isDigit) ::
        digitRunsAux n (rest.dropWhile Char.isDigit)
    else digitRunsAux n rest

/-- `re.findall(r'\d+', s)`: the maximal runs of digit characters. -/
def digitRuns (l : List Char) : List (List Char) := digitRunsAux l.length l

/-- Fuel-bounded whitespace splitter (same device as `digitRunsAux`). -/
def pySplitWsAux : ℕ → List Char → List (List Char)
  | 0, _ => []
  | _ + 1, [] => []
  | n + 1, c :: rest =>
    if isSpaceChar c then pySplitWsAux n rest
    else (c :: rest.takeWhile (fun x => !isSpaceChar x)) ::
      pySplitWsAux n (rest.dropWhile (fun x => !isSpaceChar x))

/-- Python `str.split()` with no argument: split on whitespace runs,
discarding empty pieces. -/
def pySplitWs (l : List Char) : List (List Char) := pySplitWsAux l.length l

namespace MetricsCalculator

/-- A raw cell value handed to the duration parser: a number (Python
`int`/`float`) or a string. -/
inductive DurationValue where
  | num (q : ℚ)
  | str (s : String)

/-- The first `re.findall(r'\d+', t)` match as a rational, or the given
default when there is none. -/
def firstNumOr (t : List Char) (d : ℚ) : ℚ :=
  match digitRuns t with
  | [] => d
  | r :: _ => (digitsVal r : ℚ)

/-- The fall-through branches of `_parse_duration_to_seconds`: the
hour/minute/second keyword forms and the bare-number-as-minutes default. -/
def durFallback (t : List Char) : ℚ :=
  if containsSub "hour".data t || containsSub "hr".data t then
    firstNumOr t 1 * 3600
  else if containsSub "min".data t then firstNumOr t 5 * 60
  else if containsSub "sec".data t then firstNumOr t 30
  else
    match digitRuns t with
    | [] => 0
    | r :: _ => (digitsVal r : ℚ) * 60

/-- Embeds `MetricsCalculator._parse_duration_to_seconds` of
`helpers/metric_calculator.py`: numbers pass through; colon forms are
HH:MM:SS or MM:SS (any float failure inside them raises and yields 0, while
other part counts fall through); then keyword and bare-number forms; 0 when
nothing parses. -/
def parse_duration_to_seconds (duration : DurationValue) : ℚ :=
  match duration with
  | .num q => q
  | .str s =>
    let t := pyStrip (pyLower s.data)
    if ':' ∈ t then
      let parts := splitOnChar ':' t
      if parts.length = 3 then
        match floatParse parts[0]!, floatParse parts[1]!,
            floatParse parts[2]! with
        | some h, some m, some sec => h * 3600 + m * 60 + sec
        | _, _, _ => 0
      else if parts.length = 2 then
        match floatParse parts[0]!, floatParse parts[1]! with
        | some m, some sec => m * 60 + sec
        | _, _ => 0
      else durFallback t
    else durFallback t

end MetricsCalculator

namespace UnifiedProcessor

/-- The `int(parts[i].replace(ch, ''))` step of `parse_duration`: missing
parts count 0, an unparsable part raises (yields `none`). -/
def partVal (parts : List (List Char)) (i : ℕ) (ch : Char) : Option ℤ :=
  match parts[i]? with
  | none => some 0
  | some p => intParse (p.filter (· ≠ ch))

/-- Embeds `UnifiedProcessor.parse_duration` of `merged_app.py` (identical
in `call_logs_app.py` and `app2.py`): only the `"00h 00m 00s"` token form is
recognised; everything else, and any parse failure, yields 0. -/
def parse_duration (duration_str : String) : ℤ :=
  if duration_str = "" then 0
  else if 'h' ∈ duration_str.data ∧ 'm' ∈ duration_str.data ∧
      's' ∈ duration_str.data then
    let parts := pySplitWs duration_str.data
    match partVal parts 0 'h', partVal parts 1 'm', partVal parts 2 's' with
    | some h, some m, some s => h * 3600 + m * 60 + s
    | _, _, _ => 0
  else 0

end UnifiedProcessor

/-- C6 counterexample: no single duration parser of the repository satisfies
all three example equations — `MetricsCalculator._parse_duration_to_seconds`
maps `"01h 02m 03s"` to 60 (not 3723) and `UnifiedProcessor.parse_duration`
maps `"5:30"` to 0 (not 330). -/
theorem duration_parser_examples_counterexample :
    MetricsCalculator.parse_duration_to_seconds (.str "01h 02m 03s") = 60 ∧
    (60 : ℚ) ≠ 3723 ∧
    UnifiedProcessor.parse_duration "5:30" = 0 ∧ (0 : ℤ) ≠ 330 := by
  refine ⟨?_, by norm_num, by decide, by decide⟩
  simp +decide [MetricsCalculator.parse_duration_to_seconds,
    MetricsCalculator.durFallback, MetricsCalculator.firstNumOr, pyStrip,
    pyLower, pyLowerChar, upperLowerPairs, isSpaceChar, splitOnChar,
    digitRuns, digitRunsAux, floatParse, parsePosDec, mantVal, expVal,
    digitsVal, containsSub, beginsWith, allDigits, List.foldl]

/-- C6 (amended): `UnifiedProcessor.parse_duration` satisfies the first and
third example equations (3723 and 0) but maps `"5:30"` to 0, while
`MetricsCalculator._parse_duration_to_seconds` satisfies the second and third
(330 and 0) but maps `"01h 02m 03s"` to 60 — the first number read as
minutes. -/
theorem duration_parser_examples :
    UnifiedProcessor.parse_duration "01h 02m 03s" = 3723 ∧
    UnifiedProcessor.parse_duration "5:30" = 0 ∧
    UnifiedProcessor.parse_duration "garbage" = 0 ∧
    MetricsCalculator.parse_duration_to_seconds (.str "01h 02m 03s") = 60 ∧
    MetricsCalculator.parse_duration_to_seconds (.str "5:30") = 330 ∧
    MetricsCalculator.parse_duration_to_seconds (.str "garbage") = 0 := by
  refine ⟨by decide, by decide, by decide, ?_, ?_, ?_⟩ <;>
    simp +decide [MetricsCalculator.parse_duration_to_seconds,
      MetricsCalculator.durFallback, MetricsCalculator.firstNumOr, pyStrip,
      pyLower, pyLowerChar, upperLowerPairs, isSpaceChar, splitOnChar,
      digitRuns, digitRunsAux, floatParse, parsePosDec, mantVal, expVal,
      digitsVal, containsSub, beginsWith, allDigits, List.foldl] <;> norm_num

/-! ## Lemmas toward non-negativity of parsed durations (C7) -/

theorem mem_pyStrip {a : Char} {l : List Char} (h : a ∈ pyStrip l) :
    a ∈ l := by
  unfold pyStrip at h
  have h1 := (List.dropWhile_sublist isSpaceChar).subset (List.mem_reverse.mp h)
  exact (List.dropWhile_sublist isSpaceChar).subset (List.mem_reverse.mp h1)

theorem pyLowerChar_eq_dash {c : Char} (h : pyLowerChar c = '-') : c = '-' := by
  unfold pyLowerChar at h
  split at h
  · rename_i p hp
    have hmem := List.mem_of_find?_eq_some hp
    have hall : ∀ q ∈ upperLowerPairs, q.2 ≠ '-' := by decide
    exact absurd h (hall p hmem)
  · exact h

theorem mem_splitOnChar {sep : Char} {l p : List Char}
    (hp : p ∈ splitOnChar sep l) {a : Char} (ha : a ∈ p) : a ∈ l := by
  induction l generalizing p with
  | nil =>
    simp only [splitOnChar, List.mem_singleton] at hp
    subst hp
    simp at ha
  | cons c rest ih =>
    simp only [splitOnChar] at hp
    by_cases hc : (c == sep) = true
    · rw [if_pos hc] at hp
      rcases List.mem_cons.mp hp with h1 | h1
      · subst h1; simp at ha
      · exact List.mem_cons_of_mem _ (ih h1 ha)
    · rw [if_neg hc] at hp
      rcases hsplit : splitOnChar sep rest with _ | ⟨p0, ps⟩
      · rw [hsplit] at hp
        rcases List.mem_singleton.mp hp
        rcases List.mem_singleton.mp ha
        exact List.mem_cons_self _ _
      · rw [hsplit] at hp
        rcases List.mem_cons.mp hp with h1 | h1
        · subst h1
          rcases List.mem_cons.mp ha with h2 | h2
          · subst h2; exact List.mem_cons_self _ _
          · exact List.mem_cons_of_mem _
              (ih (hsplit ▸ List.mem_cons_self p0 ps) h2)
        · exact List.mem_cons_of_mem _
            (ih (hsplit ▸ List.mem_cons_of_mem p0 h1) ha)

theorem mantVal_nonneg {l : List Char} {q : ℚ}
    (h : mantVal l = some q) : 0 ≤ q := by
  unfold mantVal at h
  split at h
  · rw [Option.some.injEq] at h
    subst h
    positivity
  · split at h
    · split at h
      · rw [Option.some.injEq] at h
        subst h
        positivity
      · exact absurd h (by simp)
    · exact absurd h (by simp)

theorem parsePosDec_nonneg {l : List Char} {q : ℚ}
    (h : parsePosDec l = some q) : 0 ≤ q := by
  unfold parsePosDec at h
  split at h
  · exact mantVal_nonneg h
  · split at h
    · rename_i hm hz
      rw [Option.some.injEq] at h
      subst h
      exact mul_nonneg (mantVal_nonneg hm)
        (le_of_lt (zpow_pos (by norm_num) _))
    · exact absurd h (by simp)
  · exact absurd h (by simp)

theorem floatParse_nonneg {l : List Char} {q : ℚ} (hm : '-' ∉ l)
    (h : floatParse l = some q) : 0 ≤ q := by
  unfold floatParse at h
  split at h
  · rename_i rest heq
    exact absurd (mem_pyStrip (heq ▸ List.mem_cons_self '-' rest)) hm
  · exact parsePosDec_nonneg h
  · exact parsePosDec_nonneg h

theorem firstNumOr_nonneg {t : List Char} {d : ℚ} (hd : 0 ≤ d) :
    0 ≤ MetricsCalculator.firstNumOr t d := by
  unfold MetricsCalculator.firstNumOr
  split
  · exact hd
  · positivity

theorem durFallback_nonneg (t : List Char) :
    0 ≤ MetricsCalculator.durFallback t := by
  unfold MetricsCalculator.durFallback
  split
  · exact mul_nonneg (firstNumOr_nonneg (by norm_num)) (by norm_num)
  · split
    · exact mul_nonneg (firstNumOr_nonneg (by norm_num)) (by norm_num)
    · split
      · exact firstNumOr_nonneg (by norm_num)
      · split
        · exact le_refl (0 : ℚ)
        · positivity

/-- C7 counterexample: a negative numeric input is returned unchanged, so
the duration parser's result is not always non-negative. -/
theorem parse_duration_nonneg_counterexample :
    MetricsCalculator.parse_duration_to_seconds (.num (-5)) = -5 ∧
    ¬ (0 : ℚ) ≤ MetricsCalculator.parse_duration_to_seconds (.num (-5)) := by
  have h : MetricsCalculator.parse_duration_to_seconds (.num (-5)) = -5 := rfl
  rw [h]
  norm_num

/-- C7 (amended): the duration parser is a total function and any shape it
cannot parse yields the sentinel 0; a numeric input is returned unchanged,
so negative numbers propagate; the result is non-negative for every string
that does not split into the 2- or 3-part colon form, and for every
colon-form string whose parts consist only of digits, dots and whitespace
(ruling out the signed, `nan`, `inf` and exponent components that Python's
`float` also accepts and that can make the source return negative or
non-finite values). -/
theorem parse_duration_total_shape :
    (∀ q : ℚ, MetricsCalculator.parse_duration_to_seconds (.num q) = q) ∧
    (∀ s : String,
      (splitOnChar ':' (pyStrip (pyLower s.data))).length ≠ 2 →
      (splitOnChar ':' (pyStrip (pyLower s.data))).length ≠ 3 →
      0 ≤ MetricsCalculator.parse_duration_to_seconds (.str s)) ∧
    (∀ s : String,
      (∀ p ∈ splitOnChar ':' (pyStrip (pyLower s.data)), ∀ c ∈ p,
        c.isDigit = true ∨ c = '.' ∨ isSpaceChar c = true) →
      0 ≤ MetricsCalculator.parse_duration_to_seconds (.str s)) ∧
    (∀ s : String,
      ':' ∉ pyStrip (pyLower s.data) →
      containsSub "hour".data (pyStrip (pyLower s.data)) = false →
      containsSub "hr".data (pyStrip (pyLower s.data)) = false →
      containsSub "min".data (pyStrip (pyLower s.data)) = false →
      containsSub "sec".data (pyStrip (pyLower s.data)) = false →
      digitRuns (pyStrip (pyLower s.data)) = [] →
      MetricsCalculator.parse_duration_to_seconds (.str s) = 0) := by
  refine ⟨fun q => rfl, fun s hne2 hne3 => ?_, fun s hchars => ?_,
    fun s hc h1 h2 h3 h4 hd => ?_⟩
  · unfold MetricsCalculator.parse_duration_to_seconds
    dsimp only
    set t := pyStrip (pyLower s.data) with ht
    by_cases hcolon : ':' ∈ t
    · rw [if_pos hcolon, if_neg hne3, if_neg hne2]
      exact durFallback_nonneg t
    · rw [if_neg hcolon]
      exact durFallback_nonneg t
  · unfold MetricsCalculator.parse_duration_to_seconds
    dsimp only
    set t := pyStrip (pyLower s.data) with ht
    have hpart : ∀ p, p ∈ splitOnChar ':' t → ∀ q, floatParse p = some q →
        0 ≤ q := by
      intro p hp q hq
      refine floatParse_nonneg (fun hdash => ?_) hq
      rcases hchars p hp '-' hdash with h | h | h
      · exact absurd h (by decide)
      · exact absurd h (by decide)
      · exact absurd h (by decide)
    by_cases hcolon : ':' ∈ t
    · rw [if_pos hcolon]
      by_cases h3 : (splitOnChar ':' t).length = 3
      · rw [if_pos h3]
        obtain ⟨p0, p1, p2, hp⟩ :
            ∃ p0 p1 p2, splitOnChar ':' t = [p0, p1, p2] := by
          rcases hsp : splitOnChar ':' t with
            _ | ⟨a, _ | ⟨b, _ | ⟨c, _ | ⟨d, rest⟩⟩⟩⟩ <;>
            rw [hsp] at h3 <;> simp_all
        rw [hp]
        have h0 : p0 ∈ splitOnChar ':' t := by rw [hp]; simp
        have h1 : p1 ∈ splitOnChar ':' t := by rw [hp]; simp
        have h2 : p2 ∈ splitOnChar ':' t := by rw [hp]; simp
        simp only [List.getElem!_cons_zero, List.getElem!_cons_succ]
        split
        · rename_i hq0 hq1 hq2
          have n0 := hpart p0 h0 _ hq0
          have n1 := hpart p1 h1 _ hq1
          have n2 := hpart p2 h2 _ hq2
          have := mul_nonneg n0 (by norm_num : (0:ℚ) ≤ 3600)
          have := mul_nonneg n1 (by norm_num : (0:ℚ) ≤ 60)
          linarith
        · exact le_refl 0
      · rw [if_neg h3]
        by_cases h2 : (splitOnChar ':' t).length = 2
        · rw [if_pos h2]
          obtain ⟨p0, p1, hp⟩ : ∃ p0 p1, splitOnChar ':' t = [p0, p1] := by
            rcases hsp : splitOnChar ':' t with
              _ | ⟨a, _ | ⟨b, _ | ⟨c, rest⟩⟩⟩ <;>
              rw [hsp] at h2 <;> simp_all
          rw [hp]
          have h0 : p0 ∈ splitOnChar ':' t := by rw [hp]; simp
          have h1 : p1 ∈ splitOnChar ':' t := by rw [hp]; simp
          simp only [List.getElem!_cons_zero, List.getElem!_cons_succ]
          split
          · rename_i hq0 hq1
            have n0 := hpart p0 h0 _ hq0
            have n1 := hpart p1 h1 _ hq1
            have := mul_nonneg n0 (by norm_num : (0:ℚ) ≤ 60)
            linarith
          · exact le_refl 0
        · rw [if_neg h2]
          exact durFallback_nonneg t
    · rw [if_neg hcolon]
      exact durFallback_nonneg t
  · unfold MetricsCalculator.parse_duration_to_seconds
    dsimp only
    rw [if_neg hc]
    unfold MetricsCalculator.durFallback
    simp only [h1, h2, h3, h4, hd, Bool.or_false, Bool.false_eq_true,
      if_false]

/-- Witness for C7: the theorem applied at the number 7, the one-part string
`"garbage"`, the all-digit colon form `"5:30"`, and the shapeless `"xyz"`. -/
theorem parse_duration_total_shape_witness :
    MetricsCalculator.parse_duration_to_seconds (.num 7) = 7 ∧
    0 ≤ MetricsCalculator.parse_duration_to_seconds (.str "garbage") ∧
    0 ≤ MetricsCalculator.parse_duration_to_seconds (.str "5:30") ∧
    MetricsCalculator.parse_duration_to_seconds (.str "xyz") = 0 :=
  ⟨parse_duration_total_shape.1 7,
   parse_duration_total_shape.2.1 "garbage" (by decide) (by decide),
   parse_duration_total_shape.2.2.1 "5:30" (by decide),
   parse_duration_total_shape.2.2.2 "xyz" (by decide) (by decide) (by decide)
     (by decide) (by decide) (by decide)⟩

/-! ## Per-phone call metrics (`helpers/metric_calculator.py`) -/

/-- Python `round` to the nearest integer: round-half-even. -/
def roundHalfEven (q : ℚ) : ℤ :=
  if q - ⌊q⌋ < 1/2 then ⌊q⌋
  else if 1/2 < q - ⌊q⌋ then ⌊q⌋ + 1
  else if ⌊q⌋ % 2 = 0 then ⌊q⌋ else ⌊q⌋ + 1

/-- Python `round(x, 2)`. -/
def round2 (q : ℚ) : ℚ := (roundHalfEven (q * 100) : ℚ) / 100

namespace MetricsCalculator

/-- Pairwise consecutive differences (`Series.diff().dropna()`). -/
def consecutiveDiffs : List ℤ → List ℤ
  | a :: b :: rest => (b - a) :: consecutiveDiffs (b :: rest)
  | _ => []

/-- The inter-call gap list in days: sort the non-null timestamps (seconds)
ascending, take pairwise consecutive differences, divide by 24·3600. -/
def gapDaysList (timestamps : List (Option ℤ)) : List ℚ :=
  (consecutiveDiffs ((timestamps.filterMap id).insertionSort (· ≤ ·))).map
    (fun d => (d : ℚ) / (24 * 3600))

/-- The gap fields computed by `_calculate_date_metrics`. -/
structure DateMetrics where
  avg_gap_between_calls : ℚ
  min_gap_between_calls : ℚ
  max_gap_between_calls : ℚ
  first_call_date : Option ℤ
  last_call_date : Option ℤ
  total_call_days : ℕ

/-- Embeds `MetricsCalculator._calculate_date_metrics` of
`helpers/metric_calculator.py` on a group's timestamp column (`none` for a
timestamp that failed to parse, otherwise seconds since the epoch). -/
def calculate_date_metrics (timestamps : List (Option ℤ)) : DateMetrics :=
  let dates := timestamps.filterMap id
  if 2 ≤ dates.length then
    let dates_sorted := dates.insertionSort (· ≤ ·)
    let gaps := (consecutiveDiffs dates_sorted).map
      (fun d => (d : ℚ) / (24 * 3600))
    { avg_gap_between_calls := round2 (gaps.sum / gaps.length)
      min_gap_between_calls :=
        round2 (match gaps with | [] => 0 | g :: gs => gs.foldl min g)
      max_gap_between_calls :=
        round2 (match gaps with | [] => 0 | g :: gs => gs.foldl max g)
      first_call_date := dates_sorted.head?
      last_call_date := dates_sorted.getLast?
      total_call_days := ((dates_sorted.map (fun d => Int.fdiv d 86400)).dedup).length }
  else if dates.length = 1 then
    { avg_gap_between_calls := 0, min_gap_between_calls := 0
      max_gap_between_calls := 0, first_call_date := dates.head?
      last_call_date := dates.head?, total_call_days := 1 }
  else
    { avg_gap_between_calls := 0, min_gap_between_calls := 0
      max_gap_between_calls := 0, first_call_date := none
      last_call_date := none, total_call_days := 0 }

end MetricsCalculator

/-- C4 (amended): per-phone gap metrics sort the group's non-null timestamps
ascending, take pairwise consecutive differences in days, and store the mean,
minimum and maximum of those differences rounded to 2 decimal places
(Python `round`); all three are zero when the group has fewer than 2
non-null timestamps. -/
theorem calculate_date_metrics_spec (ts : List (Option ℤ)) :
    (2 ≤ (ts.filterMap id).length →
      (MetricsCalculator.calculate_date_metrics ts).avg_gap_between_calls
        = round2 ((MetricsCalculator.gapDaysList ts).sum /
            ((MetricsCalculator.gapDaysList ts).length : ℚ)) ∧
      (MetricsCalculator.calculate_date_metrics ts).min_gap_between_calls
        = round2 (((MetricsCalculator.gapDaysList ts).min?).getD 0) ∧
      (MetricsCalculator.calculate_date_metrics ts).max_gap_between_calls
        = round2 (((MetricsCalculator.gapDaysList ts).max?).getD 0)) ∧
    ((ts.filterMap id).length < 2 →
      (MetricsCalculator.calculate_date_metrics ts).avg_gap_between_calls = 0 ∧
      (MetricsCalculator.calculate_date_metrics ts).min_gap_between_calls = 0 ∧
      (MetricsCalculator.calculate_date_metrics ts).max_gap_between_calls
        = 0) := by
  have hmin : ∀ l : List ℚ,
      (match l with | [] => (0:ℚ) | g :: gs => gs.foldl min g)
        = (l.min?).getD 0 := by
    intro l
    cases l with
    | nil => rfl
    | cons g gs => rw [List.min?_cons']; rfl
  have hmax : ∀ l : List ℚ,
      (match l with | [] => (0:ℚ) | g :: gs => gs.foldl max g)
        = (l.max?).getD 0 := by
    intro l
    cases l with
    | nil => rfl
    | cons g gs => rw [List.max?_cons']; rfl
  unfold MetricsCalculator.calculate_date_metrics
  constructor
  · intro h
    rw [if_pos h]
    refine ⟨rfl, ?_, ?_⟩
    · show round2 (match MetricsCalculator.gapDaysList ts with
        | [] => (0:ℚ) | g :: gs => gs.foldl min g) = _
      rw [hmin]
    · show round2 (match MetricsCalculator.gapDaysList ts with
        | [] => (0:ℚ) | g :: gs => gs.foldl max g) = _
      rw [hmax]
  · intro h
    rw [if_neg (by omega)]
    by_cases h1 : (ts.filterMap id).length = 1
    · rw [if_pos h1]
      exact ⟨rfl, rfl, rfl⟩
    · rw [if_neg h1]
      exact ⟨rfl, rfl, rfl⟩

/-- Witness for C4: the amended theorem applied to a two-timestamp group and
to a one-timestamp group. -/
theorem calculate_date_metrics_spec_witness :
    (MetricsCalculator.calculate_date_metrics
        [some 0, some 172800]).avg_gap_between_calls
      = round2 ((MetricsCalculator.gapDaysList [some 0, some 172800]).sum /
          ((MetricsCalculator.gapDaysList [some 0, some 172800]).length : ℚ))
    ∧ (MetricsCalculator.calculate_date_metrics
        [some 0]).avg_gap_between_calls = 0 :=
  ⟨((calculate_date_metrics_spec [some 0, some 172800]).1 (by decide)).1,
   ((calculate_date_metrics_spec [some 0]).2 (by decide)).1⟩

/-- C4 counterexample: for two calls 8 hours apart the only gap is exactly
1/3 day, but the stored average-gap metric is the rounded 0.33, so the
metric is not the exact mean of the consecutive differences. -/
theorem calculate_date_metrics_counterexample :
    MetricsCalculator.gapDaysList [some 0, some 28800] = [1/3] ∧
    (MetricsCalculator.calculate_date_metrics
        [some 0, some 28800]).avg_gap_between_calls = 33/100 ∧
    (33/100 : ℚ) ≠ 1/3 := by
  have hg : MetricsCalculator.gapDaysList [some 0, some 28800] = [1/3] := by
    simp +decide [MetricsCalculator.gapDaysList,
      MetricsCalculator.consecutiveDiffs, List.insertionSort,
      List.orderedInsert]
    norm_num
  refine ⟨hg, ?_, by norm_num⟩
  have havg : (MetricsCalculator.calculate_date_metrics
      [some 0, some 28800]).avg_gap_between_calls
        = round2 ((MetricsCalculator.gapDaysList [some 0, some 28800]).sum /
            ((MetricsCalculator.gapDaysList [some 0, some 28800]).length :
              ℚ)) := by
    unfold MetricsCalculator.calculate_date_metrics
    rw [if_pos
      (by decide : 2 ≤ (List.filterMap id
        [some (0:ℤ), some 28800]).length)]
    rfl
  have h13 : (([(1:ℚ)/3].sum) / (([(1:ℚ)/3].length : ℚ))) = 1/3 := by
    norm_num
  have hf : ⌊(1/3 : ℚ) * 100⌋ = 33 := by norm_num
  rw [havg, hg, h13]
  unfold round2 roundHalfEven
  rw [hf]
  norm_num

namespace MetricsCalculator

/-- One raw call-log row of a per-phone group: parsed timestamp and raw
duration cell (`none` models a pandas null dropped by `dropna`). -/
structure CallRow where
  timestamp : Option ℤ
  duration : Option DurationValue

/-- `no_of_times_called` of `_calculate_phone_metrics`: the row count of the
group. -/
def no_of_times_called (phone_calls : List CallRow) : ℕ := phone_calls.length

/-- The time fields computed by `_calculate_time_metrics`. -/
structure TimeMetrics where
  total_time_spent_seconds : ℚ
  avg_time_per_call_seconds : ℚ

/-- Embeds `MetricsCalculator._calculate_time_metrics` of
`helpers/metric_calculator.py`: loop over the non-null duration cells, parse
each, and accumulate the total seconds and the count of strictly-positive
durations; average = total / count rounded to 2 decimals, defaults 0. -/
def calculate_time_metrics (phone_calls : List CallRow) : TimeMetrics :=
  let acc := (phone_calls.filterMap (fun r => r.duration)).foldl
    (fun (a : ℚ × ℕ) dur =>
      let seconds := parse_duration_to_seconds dur
      if 0 < seconds then (a.1 + seconds, a.2 + 1) else a) (0, 0)
  if 0 < acc.2 then
    { total_time_spent_seconds := acc.1
      avg_time_per_call_seconds := round2 (acc.1 / acc.2) }
  else
    { total_time_spent_seconds := 0, avg_time_per_call_seconds := 0 }

end MetricsCalculator

theorem time_fold_eq (l : List MetricsCalculator.DurationValue) (t : ℚ)
    (v : ℕ) :
    l.foldl
      (fun (a : ℚ × ℕ) dur =>
        let seconds := MetricsCalculator.parse_duration_to_seconds dur
        if 0 < seconds then (a.1 + seconds, a.2 + 1) else a) (t, v)
      = (t + ((l.map MetricsCalculator.parse_duration_to_seconds).filter
            (fun q => decide (0 < q))).sum,
         v + ((l.map MetricsCalculator.parse_duration_to_seconds).filter
            (fun q => decide (0 < q))).length) := by
  induction l generalizing t v with
  | nil => simp
  | cons d rest ih =>
    simp only [List.foldl_cons]
    by_cases h : 0 < MetricsCalculator.parse_duration_to_seconds d
    · rw [if_pos h, ih]
      have hfil : ((MetricsCalculator.parse_duration_to_seconds d ::
          rest.map MetricsCalculator.parse_duration_to_seconds).filter
            (fun q => decide (0 < q)))
          = MetricsCalculator.parse_duration_to_seconds d ::
            (rest.map MetricsCalculator.parse_duration_to_seconds).filter
              (fun q => decide (0 < q)) := by
        simp [List.filter_cons, h]
      rw [List.map_cons, hfil, List.sum_cons, List.length_cons]
      rw [Prod.mk.injEq]
      constructor
      · ring
      · omega
    · rw [if_neg h, ih]
      have hfil : ((MetricsCalculator.parse_duration_to_seconds d ::
          rest.map MetricsCalculator.parse_duration_to_seconds).filter
            (fun q => decide (0 < q)))
          = (rest.map MetricsCalculator.parse_duration_to_seconds).filter
              (fun q => decide (0 < q)) := by
        simp [List.filter_cons, h]
      rw [List.map_cons, hfil]

theorem sum_filter_nonneg_eq (l : List ℚ) :
    (l.filter (fun q => decide (0 ≤ q))).sum
      = (l.filter (fun q => decide (0 < q))).sum := by
  induction l with
  | nil => rfl
  | cons a rest ih =>
    by_cases h1 : 0 < a
    · have e1 : (a :: rest).filter (fun q => decide (0 ≤ q))
          = a :: rest.filter (fun q => decide (0 ≤ q)) := by
        simp [List.filter_cons, le_of_lt h1]
      have e2 : (a :: rest).filter (fun q => decide (0 < q))
          = a :: rest.filter (fun q => decide (0 < q)) := by
        simp [List.filter_cons, h1]
      rw [e1, e2, List.sum_cons, List.sum_cons, ih]
    · by_cases h2 : 0 ≤ a
      · have ha : a = 0 := le_antisymm (not_lt.mp h1) h2
        have e1 : (a :: rest).filter (fun q => decide (0 ≤ q))
            = a :: rest.filter (fun q => decide (0 ≤ q)) := by
          simp [List.filter_cons, h2]
        have e2 : (a :: rest).filter (fun q => decide (0 < q))
            = rest.filter (fun q => decide (0 < q)) := by
          simp [List.filter_cons, h1]
        rw [e1, e2, List.sum_cons, ih, ha, zero_add]
      · have e1 : (a :: rest).filter (fun q => decide (0 ≤ q))
            = rest.filter (fun q => decide (0 ≤ q)) := by
          simp [List.filter_cons, h2]
        have e2 : (a :: rest).filter (fun q => decide (0 < q))
            = rest.filter (fun q => decide (0 < q)) := by
          simp [List.filter_cons, h1]
        rw [e1, e2, ih]

/-- C5 (amended): `totalDurationSeconds` is the sum of the group's
strictly-positive parsed durations (rows parsing to 0 or to a null skipped by
`dropna` contribute nothing, and including the zero rows in the sum changes
nothing), `avgTimePerCallSeconds` equals that total divided by the count of
rows with a strictly-positive parsed duration, rounded to 2 decimal places,
and every row of the group — zero-duration rows included — is counted in
`no_of_times_called`. -/
theorem calculate_time_metrics_spec
    (phone_calls : List MetricsCalculator.CallRow) :
    (MetricsCalculator.calculate_time_metrics
        phone_calls).total_time_spent_seconds
      = (((phone_calls.filterMap (fun r => r.duration)).map
          MetricsCalculator.parse_duration_to_seconds).filter
            (fun q => decide (0 < q))).sum ∧
    (MetricsCalculator.calculate_time_metrics
        phone_calls).avg_time_per_call_seconds
      = round2
          ((((phone_calls.filterMap (fun r => r.duration)).map
              MetricsCalculator.parse_duration_to_seconds).filter
                (fun q => decide (0 < q))).sum /
            ((((phone_calls.filterMap (fun r => r.duration)).map
              MetricsCalculator.parse_duration_to_seconds).filter
                (fun q => decide (0 < q))).length : ℚ)) ∧
    (((phone_calls.filterMap (fun r => r.duration)).map
        MetricsCalculator.parse_duration_to_seconds).filter
          (fun q => decide (0 ≤ q))).sum
      = (MetricsCalculator.calculate_time_metrics
          phone_calls).total_time_spent_seconds ∧
    MetricsCalculator.no_of_times_called phone_calls
      = phone_calls.length := by
  have hz : round2 0 = 0 := by norm_num [round2, roundHalfEven]
  have hfe := sum_filter_nonneg_eq
    ((phone_calls.filterMap (fun r => r.duration)).map
      MetricsCalculator.parse_duration_to_seconds)
  unfold MetricsCalculator.calculate_time_metrics
  rw [time_fold_eq]
  set L := ((phone_calls.filterMap (fun r => r.duration)).map
      MetricsCalculator.parse_duration_to_seconds).filter
        (fun q => decide (0 < q)) with hL
  simp only [zero_add]
  by_cases hv : 0 < L.length
  · rw [if_pos hv]
    exact ⟨rfl, rfl, hfe, rfl⟩
  · rw [if_neg hv]
    have hnil : L = [] :=
      List.eq_nil_of_length_eq_zero (Nat.eq_zero_of_not_pos hv)
    refine ⟨by rw [hnil]; rfl, ?_, by rw [hfe, hnil]; rfl, rfl⟩
    rw [hnil]
    simp [hz]

/-- C5 counterexample: for parsed durations 10, 5 and 5 seconds the stored
average is the rounded 6.67, not the exact quotient 20/3 of the total by the
count of positive-duration rows. -/
theorem calculate_time_metrics_counterexample :
    (MetricsCalculator.calculate_time_metrics
        [⟨none, some (.num 10)⟩, ⟨none, some (.num 5)⟩,
         ⟨none, some (.num 5)⟩]).total_time_spent_seconds = 20 ∧
    (MetricsCalculator.calculate_time_metrics
        [⟨none, some (.num 10)⟩, ⟨none, some (.num 5)⟩,
         ⟨none, some (.num 5)⟩]).avg_time_per_call_seconds = 667/100 ∧
    (667/100 : ℚ) ≠ 20/3 := by
  have hfil : (([(⟨none, some (.num 10)⟩ : MetricsCalculator.CallRow),
      ⟨none, some (.num 5)⟩, ⟨none, some (.num 5)⟩].filterMap
        (fun r => r.duration)).map
          MetricsCalculator.parse_duration_to_seconds).filter
            (fun q => decide (0 < q)) = [10, 5, 5] := by decide
  have hsum : ([10, 5, 5] : List ℚ).sum = 20 := by norm_num [List.sum_cons]
  have hf : ⌊(20 : ℚ) / 3 * 100⌋ = 666 := by norm_num
  unfold MetricsCalculator.calculate_time_metrics
  rw [time_fold_eq, hfil, hsum]
  simp only [zero_add, List.length_cons, List.length_nil]
  rw [if_pos (by norm_num : 0 < 0 + 1 + 1 + 1)]
  refine ⟨rfl, ?_, by norm_num⟩
  show round2 ((20 : ℚ) / ((0 + 1 + 1 + 1 : ℕ) : ℚ)) = 667/100
  have hcast : (((0 + 1 + 1 + 1 : ℕ)) : ℚ) = 3 := by norm_num
  rw [hcast]
  unfold round2 roundHalfEven
  rw [hf]
  norm_num

/-! ## Update-column merging (`DataCleaner.merge_updates_files`) -/

namespace DataCleaner

/-- The fragment one update cell contributes: `none` for a null cell or one
whose trimmed text is `""`, `"nan"` or `"None"`, otherwise
`"<columnName>: <trimmedValue>"`. -/
def updateFragment (cv : String × Option String) : Option String :=
  cv.2.bind (fun val =>
    let t : String := ⟨pyStrip val.data⟩
    if t = "" ∨ t = "nan" ∨ t = "None" then none
    else some (cv.1 ++ ": " ++ t))

/-- Embeds the per-row update merge loop of `DataCleaner.merge_updates_files`
(`helpers/data_cleaning.py`): `cells` are the row's update-column name/value
pairs in table-column order (`none` modelling a pandas null); fragments are
appended in order, joined with `" | "`, and the sentinel `"No updates"` is
returned when none was produced. -/
def merge_updates_row (cells : List (String × Option String)) : String :=
  let update_texts := cells.foldl
    (fun (acc : List String) cv =>
      match cv.2 with
      | none => acc
      | some val =>
        let t : String := ⟨pyStrip val.data⟩
        if t = "" ∨ t = "nan" ∨ t = "None" then acc
        else acc ++ [cv.1 ++ ": " ++ t]) []
  if update_texts = [] then "No updates"
  else String.intercalate " | " update_texts

/-- The merger as the specification words it: the fragments of the non-empty
cells in table-column order joined with `" | "`, sentinel `"No updates"`
otherwise. -/
def merge_updates_row_spec (cells : List (String × Option String)) : String :=
  let fragments := cells.filterMap updateFragment
  if fragments = [] then "No updates"
  else String.intercalate " | " fragments

end DataCleaner

theorem merge_updates_fold (cells : List (String × Option String))
    (acc : List String) :
    cells.foldl
      (fun (acc : List String) cv =>
        match cv.2 with
        | none => acc
        | some val =>
          let t : String := ⟨pyStrip val.data⟩
          if t = "" ∨ t = "nan" ∨ t = "None" then acc
          else acc ++ [cv.1 ++ ": " ++ t]) acc
      = acc ++ cells.filterMap DataCleaner.updateFragment := by
  induction cells generalizing acc with
  | nil => simp
  | cons cv rest ih =>
    simp only [List.foldl_cons, List.filterMap_cons]
    cases hv : cv.2 with
    | none => simp [DataCleaner.updateFragment, hv, ih]
    | some val =>
      by_cases hc : (⟨pyStrip val.data⟩ : String) = "" ∨
          (⟨pyStrip val.data⟩ : String) = "nan" ∨
          (⟨pyStrip val.data⟩ : String) = "None"
      · simp [DataCleaner.updateFragment, hv, hc, ih]
      · simp [DataCleaner.updateFragment, hv, hc, ih]

/-- C8: the row-level update merger appends one fragment
`"<columnName>: <trimmedValue>"` per non-empty cell (treating `"nan"`,
`"None"` and `""` as empty) in table-column order, joins them with `" | "`,
and returns the sentinel `"No updates"` when no fragment was produced; in
particular two columns with only one populated yield exactly that one
fragment, and two empty columns yield `"No updates"`. -/
theorem merge_updates_row_correct :
    (∀ cells, DataCleaner.merge_updates_row cells
      = DataCleaner.merge_updates_row_spec cells) ∧
    DataCleaner.merge_updates_row
      [("Call 1", some " Interested "), ("Call 2", none)]
      = "Call 1: Interested" ∧
    DataCleaner.merge_updates_row [("Call 1", some " "), ("Call 2", some "nan")]
      = "No updates" := by
  refine ⟨fun cells => ?_, by decide, by decide⟩
  unfold DataCleaner.merge_updates_row DataCleaner.merge_updates_row_spec
  rw [merge_updates_fold, List.nil_append]

/-! ## Key-based deduplication (`drop_duplicates(subset=…, keep='first')`) -/

namespace DataCleaner

/-- A canonical lead record as built by `DataCleaner.merge_leads_files`. -/
structure LeadRecord where
  name : String
  email : Option String
  phone : Option String
  city : Option String
  original_file : String
  employee : String

/-- A canonical update record as built by
`DataCleaner.merge_updates_files`. -/
structure UpdateRecord where
  name : String
  email : Option String
  phone : Option String
  update_text : String
  original_file : String
  employee : String

/-- pandas `drop_duplicates(subset=key, keep='first')` over the concatenated
rows: scan in order, keeping a row iff its key was not seen earlier. -/
def dropDuplicatesBy {α κ : Type} [DecidableEq κ] (key : α → κ) :
    List κ → List α → List α
  | _, [] => []
  | seen, r :: rest =>
    if key r ∈ seen then dropDuplicatesBy key seen rest
    else r :: dropDuplicatesBy key (key r :: seen) rest

/-- The leads dedup key of `merge_leads_files`:
`subset=['phone', 'email']`. -/
def leadKey (r : LeadRecord) : Option String × Option String :=
  (r.phone, r.email)

/-- The updates dedup key of `merge_updates_files`:
`subset=['name', 'phone', 'update_text']`. -/
def updateKey (r : UpdateRecord) : String × Option String × String :=
  (r.name, r.phone, r.update_text)

/-- The key-based dedup pass of `merge_leads_files` (line 208 of
`helpers/data_cleaning.py`). -/
def merge_leads_dedup (l : List LeadRecord) : List LeadRecord :=
  dropDuplicatesBy leadKey [] l

/-- The key-based dedup pass of `merge_updates_files` (line 300 of
`helpers/data_cleaning.py`). -/
def merge_updates_dedup (l : List UpdateRecord) : List UpdateRecord :=
  dropDuplicatesBy updateKey [] l

end DataCleaner

theorem find?_dropDuplicatesBy {α κ : Type} [DecidableEq κ] (key : α → κ)
    (l : List α) (seen : List κ) (k : κ) (hk : k ∉ seen) :
    (DataCleaner.dropDuplicatesBy key seen l).find?
        (fun r => decide (key r = k))
      = l.find? (fun r => decide (key r = k)) := by
  induction l generalizing seen with
  | nil => rfl
  | cons r rest ih =>
    rw [DataCleaner.dropDuplicatesBy]
    by_cases hmem : key r ∈ seen
    · rw [if_pos hmem, List.find?_cons]
      have hne : (decide (key r = k)) = false := by
        rcases h : decide (key r = k) with _ | _
        · rfl
        · exact absurd (of_decide_eq_true h ▸ hmem) hk
      rw [hne]
      exact ih seen hk
    · rw [if_neg hmem, List.find?_cons, List.find?_cons]
      rcases h : decide (key r = k) with _ | _
      · refine ih (key r :: seen) ?_
        intro hin
        rcases List.mem_cons.mp hin with h1 | h1
        · rw [h1] at h
          simp at h
        · exact hk h1
      · rfl

theorem keys_nodup_dropDuplicatesBy {α κ : Type} [DecidableEq κ] (key : α → κ)
    (l : List α) (seen : List κ) :
    ((DataCleaner.dropDuplicatesBy key seen l).map key).Nodup ∧
    ∀ r ∈ DataCleaner.dropDuplicatesBy key seen l, key r ∉ seen := by
  induction l generalizing seen with
  | nil => exact ⟨List.nodup_nil, by simp [DataCleaner.dropDuplicatesBy]⟩
  | cons r rest ih =>
    rw [DataCleaner.dropDuplicatesBy]
    by_cases hmem : key r ∈ seen
    · rw [if_pos hmem]
      exact ih seen
    · rw [if_neg hmem]
      obtain ⟨hnd, hseen⟩ := ih (key r :: seen)
      refine ⟨?_, ?_⟩
      · rw [List.map_cons, List.nodup_cons]
        refine ⟨?_, hnd⟩
        intro hin
        obtain ⟨r', hr', hkr'⟩ := List.mem_map.mp hin
        exact hseen r' hr' (hkr' ▸ List.mem_cons_self _ _)
      · intro r' hr'
        rcases List.mem_cons.mp hr' with h1 | h1
        · exact h1 ▸ hmem
        · exact fun hin =>
            hseen r' h1 (List.mem_cons_of_mem _ hin)

/-- C9: the kind-specific key-based dedup passes — key (phone, email) for
leads and (name, phone, update_text) for updates — keep, for every key, the
row that occurs first in source-file concatenation order (so the surviving
row, `original_file` field included, is the first-encountered one), and
leave at most one row per key. -/
theorem dedup_keeps_first :
    (∀ (l : List DataCleaner.LeadRecord) (k : Option String × Option String),
      (DataCleaner.merge_leads_dedup l).find?
          (fun r => decide (DataCleaner.leadKey r = k))
        = l.find? (fun r => decide (DataCleaner.leadKey r = k))) ∧
    (∀ l : List DataCleaner.LeadRecord,
      ((DataCleaner.merge_leads_dedup l).map DataCleaner.leadKey).Nodup) ∧
    (∀ (l : List DataCleaner.UpdateRecord)
        (k : String × Option String × String),
      (DataCleaner.merge_updates_dedup l).find?
          (fun r => decide (DataCleaner.updateKey r = k))
        = l.find? (fun r => decide (DataCleaner.updateKey r = k))) ∧
    (∀ l : List DataCleaner.UpdateRecord,
      ((DataCleaner.merge_updates_dedup l).map DataCleaner.updateKey).Nodup) :=
  ⟨fun l k => find?_dropDuplicatesBy DataCleaner.leadKey l [] k (by simp),
   fun l => (keys_nodup_dropDuplicatesBy DataCleaner.leadKey l []).1,
   fun l k => find?_dropDuplicatesBy DataCleaner.updateKey l [] k (by simp),
   fun l => (keys_nodup_dropDuplicatesBy DataCleaner.updateKey l []).1⟩
